import Mathlib

set_option autoImplicit false

/-!
Verification of the e-commerce sales cleaning script (`scripts/data_cleaning.py`).

The script is embedded shallowly:
* text is modelled as `List Char` (Python `str`);
* missing values (`NaN`) are modelled as `none` in `Option`;
* numeric columns are modelled as `ℚ`;
* tables are modelled as lists of records.

Definitions come first (each names the source lines it embeds),
then the theorems about them.
-/

namespace DataCleaning

/-! ## Character-list utilities

Models of Python `str.split(sep)`, `sep.join(...)`, `str.count(sep)`,
`str.strip()` as used by `load_csv` (lines 7–27) and the field cleaners.
-/

/-- Model of Python `s.split(sep)` for a one-character separator:
splitting the empty string gives one empty field, and every separator
occurrence opens a new field. -/
def splitOnSep (sep : Char) : List Char → List (List Char)
  | [] => [[]]
  | c :: cs =>
    match splitOnSep sep cs with
    | [] => [[]]
    | h :: t => if c = sep then [] :: h :: t else (c :: h) :: t

/-- Model of Python `sep.join(parts)` for a one-character separator. -/
def joinSep (sep : Char) : List (List Char) → List Char
  | [] => []
  | [x] => x
  | x :: y :: t => x ++ sep :: joinSep sep (y :: t)

/-- Model of Python `line.count(sep)` for a one-character separator. -/
def countSep (sep : Char) (l : List Char) : Nat :=
  (l.filter (fun c => c = sep)).length

/-- Model of Python `not line.strip()`: true iff the line is all whitespace. -/
def isBlankLine (l : List Char) : Bool :=
  l.all (fun c => c.isWhitespace)

/-- Model of Python `s.strip()`: remove leading and trailing whitespace. -/
def stripWs (l : List Char) : List Char :=
  ((l.dropWhile Char.isWhitespace).reverse.dropWhile Char.isWhitespace).reverse

/-! ## `load_csv` (lines 7–27)

After the hardcoded literal substitution (line 11), the file content is
split on newlines; the first line (header) is kept unconditionally
(line 14); each further line is kept as-is when it has exactly 7 commas,
re-written by `repairLine` when it splits into exactly 9 fields, and
otherwise dropped (lines 16–25).  The surviving lines are re-joined and
handed to the CSV reader, which re-splits each line on commas.
-/

/-- Lines 22–24: `parts = line.split(',')` followed by
`','.join(parts[:7] + [','.join(parts[7:])])`. -/
def repairLine (l : List Char) : List Char :=
  let parts := splitOnSep ',' l
  joinSep ',' (parts.take 7 ++ [joinSep ',' (parts.drop 7)])

/-- Lines 16–25: the fate of one data line: skipped when blank, kept
verbatim with exactly 7 commas, repaired when it splits into exactly 9
fields, and silently dropped otherwise. -/
def processLine (l : List Char) : Option (List Char) :=
  if isBlankLine l then none
  else if countSep ',' l = 7 then some l
  else if (splitOnSep ',' l).length = 9 then some (repairLine l) else none

/-- Lines 13–25: the list of surviving lines; the header (first line) is
kept unconditionally, the rest goes through `processLine`. -/
def goodLines : List (List Char) → List (List Char)
  | [] => []
  | h :: t => h :: t.filterMap processLine

/-- Model of the CSV reader applied to one surviving line (line 27,
`pd.read_csv`): a row is the comma-split field list of the line. -/
def parseRow (l : List Char) : List (List Char) :=
  splitOnSep ',' l

/-! ## Date parsing (`parse_date`, lines 50–57)

`datetime.strptime` is embedded per format: `%Y` matches exactly four
digits, `%m` and `%d` match one or two digits with the ranges 1–12 and
1–31, and the constructed `date` validates the day against the month
length (Gregorian leap years) and requires year ≥ 1.
-/

/-- A calendar date as produced by `datetime.date`. -/
structure Date where
  year : Nat
  month : Nat
  day : Nat
deriving DecidableEq, Repr

/-- Python leap-year rule used by `datetime`. -/
def isLeap (y : Nat) : Bool :=
  y % 4 = 0 && (y % 100 ≠ 0 || y % 400 = 0)

/-- Days in a month as validated by the `datetime.date` constructor. -/
def daysInMonth (y m : Nat) : Nat :=
  if m = 2 then (if isLeap y then 29 else 28)
  else if m = 4 ∨ m = 6 ∨ m = 9 ∨ m = 11 then 30
  else 31

/-- The numeric value of a decimal digit character, by codepoint. -/
def charDigit (c : Char) : Option Nat :=
  if '0' ≤ c ∧ c ≤ '9' then some (c.toNat - '0'.toNat) else none

/-- Accumulating decimal read of a digit string. -/
def readDigits (acc : Nat) : List Char → Option Nat
  | [] => some acc
  | c :: cs =>
    match charDigit c with
    | some v => readDigits (acc * 10 + v) cs
    | none => none

/-- Read a non-empty all-digit string as a natural number. -/
def readNat (l : List Char) : Option Nat :=
  match l with
  | [] => none
  | c :: cs => readDigits 0 (c :: cs)

/-- `strptime`'s `%d` and `%m`: one or two digits. -/
def read2 (l : List Char) : Option Nat :=
  if l.length = 1 ∨ l.length = 2 then readNat l else none

/-- `strptime`'s `%Y`: exactly four digits. -/
def read4 (l : List Char) : Option Nat :=
  if l.length = 4 then readNat l else none

/-- The `datetime.date` constructor: validates year, month and day. -/
def mkValidDate (y m d : Nat) : Option Date :=
  if 1 ≤ y ∧ y ≤ 9999 ∧ 1 ≤ m ∧ m ≤ 12 ∧ 1 ≤ d ∧ d ≤ daysInMonth y m
  then some ⟨y, m, d⟩ else none

/-- `datetime.strptime(s, fmt)` for one of the script's four formats: a
three-component format with separator `sep`, the year either first
(`%Y⟨sep⟩%m⟨sep⟩%d`) or last (`%d⟨sep⟩%m⟨sep⟩%Y`). -/
def parseFmt (sep : Char) (yearFirst : Bool) (s : List Char) : Option Date :=
  match splitOnSep sep s with
  | [a, b, c] =>
    let ys := if yearFirst then a else c
    let ds := if yearFirst then c else a
    match read4 ys, read2 b, read2 ds with
    | some y, some mo, some dy =>
      if 1 ≤ mo ∧ mo ≤ 12 ∧ 1 ≤ dy ∧ dy ≤ 31 then mkValidDate y mo dy else none
    | _, _, _ => none
  | _ => none

/-- Lines 50–57: try `%Y-%m-%d`, `%d/%m/%Y`, `%d-%m-%Y`, `%Y/%m/%d` in
this order; the first success wins; exhaustion yields a missing value. -/
def parse_date (s : List Char) : Option Date :=
  match parseFmt '-' true s with
  | some dt => some dt
  | none =>
    match parseFmt '/' false s with
    | some dt => some dt
    | none =>
      match parseFmt '-' false s with
      | some dt => some dt
      | none => parseFmt '/' true s

/-- A digit rendered as a character (values ≥ 9 clamp to the digit 9). -/
def digc : Nat → Char
  | 0 => '0'
  | 1 => '1'
  | 2 => '2'
  | 3 => '3'
  | 4 => '4'
  | 5 => '5'
  | 6 => '6'
  | 7 => '7'
  | 8 => '8'
  | _ + 9 => '9'

/-- A number rendered as two decimal digits (zero-padded). -/
def two (n : Nat) : List Char := [digc (n / 10), digc (n % 10)]

/-- A number rendered as four decimal digits (zero-padded). -/
def four (n : Nat) : List Char :=
  [digc (n / 1000), digc (n / 100 % 10), digc (n / 10 % 10), digc (n % 10)]

/-- A date written in the `%Y-%m-%d` format. -/
def renderISO (dt : Date) : List Char :=
  four dt.year ++ '-' :: (two dt.month ++ '-' :: two dt.day)

/-- A date written in the `%d/%m/%Y` format. -/
def renderDMYSlash (dt : Date) : List Char :=
  two dt.day ++ '/' :: (two dt.month ++ '/' :: four dt.year)

/-- A date written in the `%d-%m-%Y` format. -/
def renderDMYDash (dt : Date) : List Char :=
  two dt.day ++ '-' :: (two dt.month ++ '-' :: four dt.year)

/-- A date written in the `%Y/%m/%d` format. -/
def renderYMDSlash (dt : Date) : List Char :=
  four dt.year ++ '/' :: (two dt.month ++ '/' :: two dt.day)

/-! ## Sales cleaning (lines 47–62) -/

/-- Line 48: the regex `[$,€]` replaced by the empty string deletes each
occurrence of the three currency characters. -/
def stripCurrency (l : List Char) : List Char :=
  l.filter (fun c => !(c == '$' || c == ',' || c == '€'))

/-- Line 48: `.astype(float)` on a cleaned price string: an integer part
optionally followed by a decimal point and fractional digits. -/
def parseDecimal (l : List Char) : Option ℚ :=
  match splitOnSep '.' l with
  | [ip] => (readNat ip).map (fun n => (n : ℚ))
  | [ip, fp] =>
    match readNat ip, readNat fp with
    | some a, some b => some ((a : ℚ) + (b : ℚ) / (10 : ℚ) ^ fp.length)
    | _, _ => none
  | _ => none

/-- Line 61: `.str.strip().replace('', np.nan)` on the email column. -/
def cleanEmail (e : Option (List Char)) : Option (List Char) :=
  match e with
  | none => none
  | some s => if stripWs s = [] then none else some (stripWs s)

/-- A raw sales row as it comes out of `load_csv` (the eight columns of
the sales file). -/
structure RawSale where
  order_id : Nat
  product_name : List Char
  category : List Char
  price : List Char
  quantity : Int
  order_date : List Char
  customer_id : Option (List Char)
  customer_email : Option (List Char)
deriving DecidableEq, Repr

/-- A cleaned sales row after lines 47–62, with the derived revenue. -/
structure Sale where
  order_id : Nat
  product_name : List Char
  category : List Char
  price : ℚ
  quantity : Int
  order_date : Option Date
  customer_id : Option (List Char)
  customer_email : Option (List Char)
  revenue : ℚ
deriving DecidableEq, Repr

/-- Lines 47–62 applied to one row: the price cast fails when the
stripped price string is not numeric (as `.astype(float)` would). -/
def cleanSaleRow (r : RawSale) : Option Sale :=
  (parseDecimal (stripCurrency r.price)).map (fun p =>
    { order_id := r.order_id
      product_name := stripWs r.product_name
      category := r.category
      price := p
      quantity := r.quantity
      order_date := parse_date r.order_date
      customer_id := r.customer_id
      customer_email := cleanEmail r.customer_email
      revenue := p * (r.quantity : ℚ) })

/-- Lines 47–62 applied to the sales table; any failing price cast
aborts the whole column cast, as `.astype(float)` does. -/
def cleanSales (rows : List RawSale) : Option (List Sale) :=
  rows.mapM cleanSaleRow

/-! ## Product cleaning (line 64) -/

/-- A product row: unique per (product_name, category) in the catalog. -/
structure Product where
  product_name : List Char
  category : List Char
  cost_price : ℚ
deriving DecidableEq, Repr

/-- Line 64: strip whitespace from product names. -/
def cleanProducts (ps : List Product) : List Product :=
  ps.map (fun p => { p with product_name := stripWs p.product_name })

/-! ## Customer cleaning (lines 66–78) -/

/-- A raw customer row. -/
structure Customer where
  customer_id : List Char
  name : List Char
  age : Option ℚ
  city : Option (List Char)
  country : Option (List Char)
deriving DecidableEq, Repr

/-- A cleaned customer row with the derived age group. -/
structure CleanCustomer where
  customer_id : List Char
  name : List Char
  age : Option ℚ
  city : Option (List Char)
  country : Option (List Char)
  age_group : Option (List Char)
deriving DecidableEq, Repr

/-- Worker for `drop_duplicates(subset='customer_id', keep='first')`
(line 66): `seen` is the set of ids already emitted. -/
def dedupGo (seen : List (List Char)) : List Customer → List Customer
  | [] => []
  | c :: cs =>
    if c.customer_id ∈ seen then dedupGo seen cs
    else c :: dedupGo (c.customer_id :: seen) cs

/-- Line 66: keep the first row of each customer id, in order. -/
def dedupCustomers (l : List Customer) : List Customer :=
  dedupGo [] l

/-- Lines 67–70: the country replacement map: the exact string
`United Kingdom` becomes `UK` and the empty string becomes missing;
everything else (including missing) is unchanged. -/
def remapCountry (c : Option (List Char)) : Option (List Char) :=
  if c = some "United Kingdom".data then some "UK".data
  else if c = some [] then none
  else c

/-- Sorted insertion, the worker of `sortRats`. -/
def insertSorted (x : ℚ) : List ℚ → List ℚ
  | [] => [x]
  | y :: ys => if x ≤ y then x :: y :: ys else y :: insertSorted x ys

/-- Ascending sort of a list of rationals. -/
def sortRats (l : List ℚ) : List ℚ :=
  l.foldr insertSorted []

/-- Line 71: `Series.median()` with NaN values already filtered out:
sort ascending; the middle element for odd length, the mean of the two
middle elements for even length; the empty series has a missing median. -/
def medianOpt (l : List ℚ) : Option ℚ :=
  let s := sortRats l
  if s.length = 0 then none
  else if s.length % 2 = 1 then some (s.getD (s.length / 2) 0)
  else some ((s.getD (s.length / 2 - 1) 0 + s.getD (s.length / 2) 0) / 2)

/-- Line 72: `fillna(median)`: a missing age becomes the median when the
median exists; otherwise (the all-missing series) nothing changes. -/
def fillAge (med : Option ℚ) (a : Option ℚ) : Option ℚ :=
  match a, med with
  | none, some m => some m
  | a, _ => a

/-- Lines 73–78: `pd.cut` with bins `[0,20,30,40,50,100]`,
`right=False`: half-open bins, out-of-range ages get no label. -/
def ageGroup (a : ℚ) : Option (List Char) :=
  if 0 ≤ a ∧ a < 20 then some "<20".data
  else if 20 ≤ a ∧ a < 30 then some "20-29".data
  else if 30 ≤ a ∧ a < 40 then some "30-39".data
  else if 40 ≤ a ∧ a < 50 then some "40-49".data
  else if 50 ≤ a ∧ a < 100 then some "50+".data
  else none

/-- Lines 66–78 in source order: dedup by customer id, remap countries,
take the median of the (deduplicated) ages, fill missing ages with it,
and derive the age group from the filled age. -/
def cleanCustomers (raw : List Customer) : List CleanCustomer :=
  let dd := (dedupCustomers raw).map (fun c => { c with country := remapCountry c.country })
  let med := medianOpt (dd.filterMap (fun c => c.age))
  dd.map (fun c =>
    let a := fillAge med c.age
    { customer_id := c.customer_id
      name := c.name
      age := a
      city := c.city
      country := c.country
      age_group := a.bind ageGroup })

/-! ## Merging (lines 85–97) -/

/-- A sales row joined with its (optional) product match. -/
structure SP where
  sale : Sale
  cost_price : Option ℚ
deriving DecidableEq, Repr

/-- A sales row joined with product and customer matches. -/
structure SPC where
  sale : Sale
  cost_price : Option ℚ
  customer : Option CleanCustomer
deriving DecidableEq, Repr

/-- A fully merged row with the derived profit (line 97). -/
structure Merged where
  sale : Sale
  cost_price : Option ℚ
  customer : Option CleanCustomer
  profit : Option ℚ
deriving DecidableEq, Repr

/-- Lines 86–91: `pd.merge(sales, products, on=['product_name',
'category'], how='left')`: each sales row pairs with every matching
product row, or with missing values when no product matches. -/
def leftJoinProducts (sales : List Sale) (products : List Product) : List SP :=
  sales.flatMap (fun s =>
    match products.filter
        (fun p => decide (p.product_name = s.product_name ∧ p.category = s.category)) with
    | [] => [⟨s, none⟩]
    | m => m.map (fun p => ⟨s, some p.cost_price⟩))

/-- Lines 85–95: the second left join, on `customer_id`; a sales row
with a missing customer id matches no customer. -/
def leftJoinCustomers (rows : List SP) (customers : List CleanCustomer) : List SPC :=
  rows.flatMap (fun r =>
    match customers.filter (fun c => decide (r.sale.customer_id = some c.customer_id)) with
    | [] => [⟨r.sale, r.cost_price, none⟩]
    | m => m.map (fun c => ⟨r.sale, r.cost_price, some c⟩))

/-- Lines 85–97: both left joins followed by the derived profit
`(price - cost_price) * quantity`, missing when the cost is missing. -/
def mergedData (sales : List Sale) (products : List Product)
    (customers : List CleanCustomer) : List Merged :=
  (leftJoinCustomers (leftJoinProducts sales products) customers).map (fun r =>
    { sale := r.sale
      cost_price := r.cost_price
      customer := r.customer
      profit := r.cost_price.map (fun cp => (r.sale.price - cp) * (r.sale.quantity : ℚ)) })

/-! ## Cleaning report counts (lines 138–150) -/

/-- Worker for `DataFrame.duplicated().sum()`: counts rows equal (in
every column) to some earlier row. -/
def countDupGo {α : Type} [DecidableEq α] (seen : List α) : List α → Nat
  | [] => 0
  | x :: xs => (if x ∈ seen then 1 else 0) + countDupGo (x :: seen) xs

/-- Line 145: `customers.duplicated().sum()`, evaluated on the cleaned
customers table. -/
def countDuplicated {α : Type} [DecidableEq α] (l : List α) : Nat :=
  countDupGo [] l

/-- Line 146: `customers['age'].isna().sum()`, evaluated on the cleaned
customers table. -/
def countMissingAge (l : List CleanCustomer) : Nat :=
  (l.filter (fun c => c.age.isNone)).length

/-! ## Pipeline control flow (lines 29–42 and 45–197)

The three loads sit in the single `try`/`except` block (lines 34–42):
a load failure prints a message and exits before any cleaning, merging
or report writing.  Everything after line 45 runs unguarded; the one
modelled downstream failure is the price cast of line 48.
-/

/-- The three successfully loaded input tables. -/
structure Inputs where
  sales_raw : List RawSale
  products : List Product
  customers : List Customer
deriving Repr

/-- The artifacts the script writes (lines 192–194), reduced to the
parts the claims mention: the two audited cleaning counts and the
merged dataset. -/
structure Reports where
  dup_count : Nat
  missing_age_count : Nat
  merged : List Merged
deriving Repr

/-- How one run of the script ends. -/
inductive RunOutcome where
  | loadFailed (msg : List Char)
  | crashed
  | completed (r : Reports)
deriving Repr

/-- Lines 45–194 on successfully loaded inputs. -/
def buildReports (sales : List Sale) (products : List Product)
    (customers : List Customer) : Reports :=
  let cs := cleanCustomers customers
  { dup_count := countDuplicated cs
    missing_age_count := countMissingAge cs
    merged := mergedData sales (cleanProducts products) cs }

/-- Lines 29–197: the whole script.  A load error is caught, its message
printed, and the run halts (lines 40–42); an unguarded downstream error
(the price cast) crashes the run; otherwise the reports are written. -/
def runPipeline (load : Except (List Char) Inputs) : RunOutcome :=
  match load with
  | .error e => .loadFailed e
  | .ok i =>
    match cleanSales i.sales_raw with
    | none => .crashed
    | some sales => .completed (buildReports sales i.products i.customers)

/-- The reports a run produces, if any. -/
def reportsOf : RunOutcome → Option Reports
  | .completed r => some r
  | _ => none

/-- The error message a run prints, if any (line 41). -/
def printedError : RunOutcome → Option (List Char)
  | .loadFailed e => some ("Error loading data: ".data ++ e)
  | _ => none

/-! ## Concrete fixtures for witnesses and counterexamples -/

/-- A well-formed repair candidate: nine comma-separated fields. -/
def nineFieldLine : List Char := "a,b,c,d,e,f,g,h,i".data

/-- A malformed sales line whose email field contains one embedded
comma, so the line splits into nine fields. -/
def malformedSalesLine : List Char :=
  "1001,Laptop,Electronics,$1200,1,2023-01-15,C001,bob.wilson@x,com".data

/-- The trailing field of `malformedSalesLine` as it stood before the
extra delimiter broke the line apart. -/
def origTrailingField : List Char := "bob.wilson@x,com".data

/-- A sales-file header line. -/
def demoHeader : List Char :=
  "order_id,product_name,category,price,quantity,order_date,customer_id,customer_email".data

/-- A non-blank data line matching neither accepted shape. -/
def demoBadLine : List Char := "a,b,c".data

/-- A raw sales row with the price and quantity of the end-to-end
example of the spec. -/
def demoRawSale : RawSale :=
  { order_id := 1
    product_name := "Laptop".data
    category := "Electronics".data
    price := "$10.00".data
    quantity := 2
    order_date := "2023-01-15".data
    customer_id := some "C001".data
    customer_email := some "ann@shop.io".data }

/-- The cleaned form of `demoRawSale`. -/
def demoCleanSale : Sale :=
  { order_id := 1
    product_name := "Laptop".data
    category := "Electronics".data
    price := 10
    quantity := 2
    order_date := some ⟨2023, 1, 15⟩
    customer_id := some "C001".data
    customer_email := some "ann@shop.io".data
    revenue := 20 }

/-- The product of the end-to-end example: cost price 6. -/
def demoProduct : Product :=
  { product_name := "Laptop".data, category := "Electronics".data, cost_price := 6 }

/-- A cleaned customer row for the merge witnesses. -/
def demoCleanCustomer : CleanCustomer :=
  { customer_id := "C001".data
    name := "Ann".data
    age := some 30
    city := none
    country := some "UK".data
    age_group := some "30-39".data }

/-- A customer whose first occurrence has a missing age. -/
def dupFirstCustomer : Customer :=
  { customer_id := "C001".data, name := "Ann".data, age := none, city := none, country := none }

/-- A duplicate of the same customer id carrying the only age value. -/
def dupSecondCustomer : Customer :=
  { customer_id := "C001".data, name := "Ann".data, age := some 30, city := none, country := none }

/-- A customer row that survives cleaning with its own age. -/
def goodCustomer : Customer :=
  { customer_id := "C002".data
    name := "Bob".data
    age := some 40
    city := none
    country := some "United Kingdom".data }

/-- Inputs whose sales table has a non-numeric price, crashing the
unguarded price cast of line 48. -/
def badPriceInputs : Inputs :=
  { sales_raw := [{ demoRawSale with price := "abc".data }]
    products := []
    customers := [] }

/-! ## Split/join lemmas -/

theorem splitOnSep_ne_nil (sep : Char) (l : List Char) : splitOnSep sep l ≠ [] := by
  cases l with
  | nil => simp [splitOnSep]
  | cons c cs =>
    simp only [splitOnSep]
    cases splitOnSep sep cs with
    | nil => simp
    | cons h t =>
      by_cases hc : c = sep <;> simp [hc]

/-- Splitting a string that does not contain the separator yields the
whole string as the single field. -/
theorem splitOnSep_of_not_mem (sep : Char) (l : List Char) (h : sep ∉ l) :
    splitOnSep sep l = [l] := by
  induction l with
  | nil => rfl
  | cons c cs ih =>
    have hc : c ≠ sep := fun hcs => h (hcs ▸ List.mem_cons_self c cs)
    have hcs : sep ∉ cs := fun hm => h (List.mem_cons_of_mem _ hm)
    simp only [splitOnSep, ih hcs]
    simp [hc]

/-- Splitting a string of the form `a ++ sep ++ rest` where `a` is
separator-free peels off `a` as the first field. -/
theorem splitOnSep_append (sep : Char) (a rest : List Char) (h : sep ∉ a) :
    splitOnSep sep (a ++ sep :: rest) = a :: splitOnSep sep rest := by
  induction a with
  | nil =>
    simp only [List.nil_append, splitOnSep]
    rcases hr : splitOnSep sep rest with _ | ⟨h0, t0⟩
    · exact absurd hr (splitOnSep_ne_nil sep rest)
    · simp
  | cons c cs ih =>
    have hc : c ≠ sep := fun hcs => h (hcs ▸ List.mem_cons_self c cs)
    have hcs : sep ∉ cs := fun hm => h (List.mem_cons_of_mem _ hm)
    simp only [List.cons_append, splitOnSep]
    rw [show cs.append (sep :: rest) = cs ++ sep :: rest from rfl, ih hcs]
    simp [hc]

/-- `join` is a left inverse of `split`: re-joining the fields with the
same separator restores the original string. -/
theorem joinSep_splitOnSep (sep : Char) (l : List Char) :
    joinSep sep (splitOnSep sep l) = l := by
  induction l with
  | nil => rfl
  | cons c cs ih =>
    simp only [splitOnSep]
    rcases hr : splitOnSep sep cs with _ | ⟨h0, t0⟩
    · exact absurd hr (splitOnSep_ne_nil sep cs)
    · rw [hr] at ih
      by_cases hc : c = sep
      · subst hc
        simp only [if_pos rfl, joinSep]
        cases t0 <;> simp_all [joinSep]
      · simp only [if_neg hc]
        cases t0 <;> simp_all [joinSep]

/-- The number of fields is one more than the number of separators. -/
theorem length_splitOnSep (sep : Char) (l : List Char) :
    (splitOnSep sep l).length = countSep sep l + 1 := by
  induction l with
  | nil => rfl
  | cons c cs ih =>
    simp only [splitOnSep, countSep] at *
    rcases hr : splitOnSep sep cs with _ | ⟨h0, t0⟩
    · exact absurd hr (splitOnSep_ne_nil sep cs)
    · rw [hr] at ih
      by_cases hc : c = sep
      · simp [hc, List.filter, ih]
      · simp only [if_neg hc]
        simp only [List.filter, List.length_cons] at *
        simp [decide_eq_false hc, ih]

/-- Collapsing the tail of a field list into one joined field and then
re-joining everything is the same as re-joining the original fields. -/
theorem joinSep_take_append_join (sep : Char) :
    ∀ (n : Nat) (ps : List (List Char)), ps.drop n ≠ [] →
      joinSep sep (ps.take n ++ [joinSep sep (ps.drop n)]) = joinSep sep ps := by
  intro n
  induction n with
  | zero => intro ps _; simp [joinSep]
  | succ n ih =>
    intro ps hps
    cases ps with
    | nil => simp at hps
    | cons p ps' =>
      simp only [List.take_succ_cons, List.drop_succ_cons] at *
      have hne : ps' ≠ [] := by
        intro h; rw [h] at hps; simp at hps
      have hcons : ∀ (x : List Char) (ys : List (List Char)), ys ≠ [] →
          joinSep sep (x :: ys) = x ++ sep :: joinSep sep ys := by
        intro x ys hys
        cases ys with
        | nil => exact absurd rfl hys
        | cons a b => rfl
      rw [List.cons_append, hcons p _ (by simp), ih ps' hps, hcons p ps' hne]

/-- The repair of line 24 is textually the identity on a nine-field line. -/
theorem repairLine_eq_self (l : List Char) (h : (splitOnSep ',' l).length = 9) :
    repairLine l = l := by
  unfold repairLine
  have hdrop : (splitOnSep ',' l).drop 7 ≠ [] := by
    intro hnil
    have hlen := congrArg List.length hnil
    simp only [List.length_drop, h, List.length_nil] at hlen
    omega
  rw [joinSep_take_append_join ',' 7 _ hdrop, joinSep_splitOnSep]

/-! ## Claim theorems -/

/-- Claim C9: for every data line that splits into exactly nine
comma-separated fields, re-joining `parts[:7]` with the comma-join of
`parts[7:]` (line 24) reproduces the original line character for
character, so the textual repair step changes nothing about such a line
before CSV parsing. -/
theorem repair_is_textual_identity (l : List Char)
    (h : (splitOnSep ',' l).length = 9) :
    repairLine l = l :=
  repairLine_eq_self l h

theorem repair_is_textual_identity_witness :
    (splitOnSep ',' nineFieldLine).length = 9 ∧ repairLine nineFieldLine = nineFieldLine :=
  ⟨by decide, repair_is_textual_identity nineFieldLine (by decide)⟩

/-- Claim C1 (failing run): on a sales line with exactly two extra
delimiters the repaired line is identical to the malformed input, so
the CSV reader re-splits it into nine fields again and its last column
is the fragment after the embedded comma, not the reconstructed
original trailing field. -/
theorem repair_roundtrip_fails :
    countSep ',' malformedSalesLine = 8 ∧
    (splitOnSep ',' malformedSalesLine).length = 9 ∧
    joinSep ',' ((splitOnSep ',' malformedSalesLine).drop 7) = origTrailingField ∧
    repairLine malformedSalesLine = malformedSalesLine ∧
    (parseRow (repairLine malformedSalesLine)).getLast? = some "com".data ∧
    (parseRow (repairLine malformedSalesLine)).getLast? ≠ some origTrailingField := by
  decide

/-- Claim C2: `load_csv` keeps the header (first) line unconditionally,
and every non-empty data line matching neither accepted shape (comma
count 7, or exactly nine split fields) is silently dropped: it is not
kept itself, and no kept line reproduces it, so it contributes no row
to the parsed table; no error is raised for it (`processLine` is total
and just returns `none`). -/
theorem header_kept_malformed_dropped (hd : List Char) (t : List (List Char)) :
    goodLines (hd :: t) = hd :: t.filterMap processLine ∧
    ∀ l ∈ t, isBlankLine l = false → countSep ',' l ≠ 7 →
      (splitOnSep ',' l).length ≠ 9 →
      processLine l = none ∧ l ∉ t.filterMap processLine := by
  refine ⟨rfl, ?_⟩
  intro l _ hblank h7 h9
  constructor
  · simp [processLine, hblank, h7, h9]
  · intro hmem
    obtain ⟨a, _, hpa⟩ := List.mem_filterMap.mp hmem
    by_cases hba : isBlankLine a
    · simp [processLine, hba] at hpa
    · by_cases h7a : countSep ',' a = 7
      · have hla : l = a := by
          simp [processLine, hba, h7a] at hpa
          exact hpa.symm
        exact h7 (hla ▸ h7a)
      · by_cases h9a : (splitOnSep ',' a).length = 9
        · have hla : l = repairLine a := by
            simp [processLine, hba, h7a, h9a] at hpa
            exact hpa.symm
          rw [hla, repairLine_eq_self a h9a] at h9
          exact h9 h9a
        · simp [processLine, hba, h7a, h9a] at hpa

theorem header_kept_malformed_dropped_witness :
    goodLines (demoHeader :: [demoBadLine]) = demoHeader :: [demoBadLine].filterMap processLine ∧
    processLine demoBadLine = none ∧
    demoBadLine ∉ [demoBadLine].filterMap processLine := by
  obtain ⟨h1, h2⟩ := header_kept_malformed_dropped demoHeader [demoBadLine]
  obtain ⟨h3, h4⟩ := h2 demoBadLine (by decide) (by decide) (by decide) (by decide)
  exact ⟨h1, h3, h4⟩

/-! ## Digit and rendering lemmas for the date parser -/

theorem charDigit_digc (n : Nat) (h : n < 10) : charDigit (digc n) = some n := by
  interval_cases n <;> decide

theorem digc_ne_dash (n : Nat) : digc n ≠ '-' := by
  by_cases h : n < 9
  · interval_cases n <;> decide
  · obtain ⟨k, rfl⟩ : ∃ k, n = k + 9 := ⟨n - 9, by omega⟩
    exact (by decide : ('9' : Char) ≠ '-')

theorem digc_ne_slash (n : Nat) : digc n ≠ '/' := by
  by_cases h : n < 9
  · interval_cases n <;> decide
  · obtain ⟨k, rfl⟩ : ∃ k, n = k + 9 := ⟨n - 9, by omega⟩
    exact (by decide : ('9' : Char) ≠ '/')

theorem not_mem_dash_two (n : Nat) : '-' ∉ two n := by
  simp only [two, List.mem_cons, List.not_mem_nil, or_false]
  exact not_or.mpr ⟨Ne.symm (digc_ne_dash _), Ne.symm (digc_ne_dash _)⟩

theorem not_mem_slash_two (n : Nat) : '/' ∉ two n := by
  simp only [two, List.mem_cons, List.not_mem_nil, or_false]
  exact not_or.mpr ⟨Ne.symm (digc_ne_slash _), Ne.symm (digc_ne_slash _)⟩

theorem not_mem_dash_four (n : Nat) : '-' ∉ four n := by
  simp only [four, List.mem_cons, List.not_mem_nil, or_false]
  intro h
  rcases h with h | h | h | h <;> exact digc_ne_dash _ h.symm

theorem not_mem_slash_four (n : Nat) : '/' ∉ four n := by
  simp only [four, List.mem_cons, List.not_mem_nil, or_false]
  intro h
  rcases h with h | h | h | h <;> exact digc_ne_slash _ h.symm

theorem not_mem_append_cons {c sep : Char} {a b : List Char}
    (h1 : c ∉ a) (h2 : c ≠ sep) (h3 : c ∉ b) : c ∉ a ++ sep :: b := by
  intro h
  rcases List.mem_append.mp h with h | h
  · exact h1 h
  · rcases List.mem_cons.mp h with h | h
    · exact h2 h
    · exact h3 h

theorem readNat_two (n : Nat) (h : n < 100) : readNat (two n) = some n := by
  have h1 : n / 10 < 10 := by omega
  have h2 : n % 10 < 10 := by omega
  simp [two, readNat, readDigits, charDigit_digc _ h1, charDigit_digc _ h2]
  omega

theorem readNat_four (n : Nat) (h : n < 10000) : readNat (four n) = some n := by
  have h1 : n / 1000 < 10 := by omega
  have h2 : n / 100 % 10 < 10 := by omega
  have h3 : n / 10 % 10 < 10 := by omega
  have h4 : n % 10 < 10 := by omega
  simp [four, readNat, readDigits, charDigit_digc _ h1, charDigit_digc _ h2,
    charDigit_digc _ h3, charDigit_digc _ h4]
  omega

theorem read2_two (n : Nat) (h : n < 100) : read2 (two n) = some n := by
  unfold read2
  rw [if_pos (Or.inr (by simp [two]))]
  exact readNat_two n h

theorem read4_four (n : Nat) (h : n < 10000) : read4 (four n) = some n := by
  unfold read4
  rw [if_pos (by simp [four])]
  exact readNat_four n h

theorem read4_two (n : Nat) : read4 (two n) = none := by
  unfold read4
  rw [if_neg (by simp [two])]

theorem read2_four (n : Nat) : read2 (four n) = none := by
  unfold read2
  rw [if_neg (by simp [four])]

theorem split_renderISO (dt : Date) :
    splitOnSep '-' (renderISO dt) = [four dt.year, two dt.month, two dt.day] := by
  unfold renderISO
  rw [splitOnSep_append '-' _ _ (not_mem_dash_four _),
    splitOnSep_append '-' _ _ (not_mem_dash_two _),
    splitOnSep_of_not_mem '-' _ (not_mem_dash_two _)]

theorem split_renderDMYSlash (dt : Date) :
    splitOnSep '/' (renderDMYSlash dt) = [two dt.day, two dt.month, four dt.year] := by
  unfold renderDMYSlash
  rw [splitOnSep_append '/' _ _ (not_mem_slash_two _),
    splitOnSep_append '/' _ _ (not_mem_slash_two _),
    splitOnSep_of_not_mem '/' _ (not_mem_slash_four _)]

theorem split_renderDMYDash (dt : Date) :
    splitOnSep '-' (renderDMYDash dt) = [two dt.day, two dt.month, four dt.year] := by
  unfold renderDMYDash
  rw [splitOnSep_append '-' _ _ (not_mem_dash_two _),
    splitOnSep_append '-' _ _ (not_mem_dash_two _),
    splitOnSep_of_not_mem '-' _ (not_mem_dash_four _)]

theorem split_renderYMDSlash (dt : Date) :
    splitOnSep '/' (renderYMDSlash dt) = [four dt.year, two dt.month, two dt.day] := by
  unfold renderYMDSlash
  rw [splitOnSep_append '/' _ _ (not_mem_slash_four _),
    splitOnSep_append '/' _ _ (not_mem_slash_two _),
    splitOnSep_of_not_mem '/' _ (not_mem_slash_two _)]

theorem not_mem_dash_renderDMYSlash (dt : Date) : '-' ∉ renderDMYSlash dt :=
  not_mem_append_cons (not_mem_dash_two _) (by decide)
    (not_mem_append_cons (not_mem_dash_two _) (by decide) (not_mem_dash_four _))

theorem not_mem_slash_renderDMYDash (dt : Date) : '/' ∉ renderDMYDash dt :=
  not_mem_append_cons (not_mem_slash_two _) (by decide)
    (not_mem_append_cons (not_mem_slash_two _) (by decide) (not_mem_slash_four _))

theorem not_mem_dash_renderYMDSlash (dt : Date) : '-' ∉ renderYMDSlash dt :=
  not_mem_append_cons (not_mem_dash_four _) (by decide)
    (not_mem_append_cons (not_mem_dash_two _) (by decide) (not_mem_dash_two _))

theorem not_mem_slash_renderISO (dt : Date) : '/' ∉ renderISO dt :=
  not_mem_append_cons (not_mem_slash_four _) (by decide)
    (not_mem_append_cons (not_mem_slash_two _) (by decide) (not_mem_slash_two _))

/-- A format whose separator does not occur in the input fails. -/
theorem parseFmt_of_not_mem (sep : Char) (yearFirst : Bool) (s : List Char)
    (h : sep ∉ s) : parseFmt sep yearFirst s = none := by
  unfold parseFmt
  rw [splitOnSep_of_not_mem sep s h]

theorem daysInMonth_le_31 (y m : Nat) : daysInMonth y m ≤ 31 := by
  unfold daysInMonth
  split_ifs <;> omega

theorem parseFmt_ISO (y m d : Nat) (hy1 : 1 ≤ y) (hy2 : y ≤ 9999)
    (hm1 : 1 ≤ m) (hm2 : m ≤ 12) (hd1 : 1 ≤ d) (hd2 : d ≤ daysInMonth y m) :
    parseFmt '-' true (renderISO ⟨y, m, d⟩) = some ⟨y, m, d⟩ := by
  have hd31 : d ≤ 31 := le_trans hd2 (daysInMonth_le_31 y m)
  unfold parseFmt
  rw [split_renderISO]
  simp only [if_true, read4_four y (by omega), read2_two m (by omega), read2_two d (by omega)]
  rw [if_pos ⟨hm1, hm2, hd1, hd31⟩]
  unfold mkValidDate
  rw [if_pos ⟨hy1, hy2, hm1, hm2, hd1, hd2⟩]

theorem parseFmt_DMYSlash (y m d : Nat) (hy1 : 1 ≤ y) (hy2 : y ≤ 9999)
    (hm1 : 1 ≤ m) (hm2 : m ≤ 12) (hd1 : 1 ≤ d) (hd2 : d ≤ daysInMonth y m) :
    parseFmt '/' false (renderDMYSlash ⟨y, m, d⟩) = some ⟨y, m, d⟩ := by
  have hd31 : d ≤ 31 := le_trans hd2 (daysInMonth_le_31 y m)
  unfold parseFmt
  rw [split_renderDMYSlash]
  simp only [read4_four y (by omega), read2_two m (by omega), read2_two d (by omega),
    Bool.false_eq_true, if_false]
  rw [if_pos ⟨hm1, hm2, hd1, hd31⟩]
  unfold mkValidDate
  rw [if_pos ⟨hy1, hy2, hm1, hm2, hd1, hd2⟩]

theorem parseFmt_DMYDash (y m d : Nat) (hy1 : 1 ≤ y) (hy2 : y ≤ 9999)
    (hm1 : 1 ≤ m) (hm2 : m ≤ 12) (hd1 : 1 ≤ d) (hd2 : d ≤ daysInMonth y m) :
    parseFmt '-' false (renderDMYDash ⟨y, m, d⟩) = some ⟨y, m, d⟩ := by
  have hd31 : d ≤ 31 := le_trans hd2 (daysInMonth_le_31 y m)
  unfold parseFmt
  rw [split_renderDMYDash]
  simp only [read4_four y (by omega), read2_two m (by omega), read2_two d (by omega),
    Bool.false_eq_true, if_false]
  rw [if_pos ⟨hm1, hm2, hd1, hd31⟩]
  unfold mkValidDate
  rw [if_pos ⟨hy1, hy2, hm1, hm2, hd1, hd2⟩]

theorem parseFmt_YMDSlash (y m d : Nat) (hy1 : 1 ≤ y) (hy2 : y ≤ 9999)
    (hm1 : 1 ≤ m) (hm2 : m ≤ 12) (hd1 : 1 ≤ d) (hd2 : d ≤ daysInMonth y m) :
    parseFmt '/' true (renderYMDSlash ⟨y, m, d⟩) = some ⟨y, m, d⟩ := by
  have hd31 : d ≤ 31 := le_trans hd2 (daysInMonth_le_31 y m)
  unfold parseFmt
  rw [split_renderYMDSlash]
  simp only [if_true, read4_four y (by omega), read2_two m (by omega), read2_two d (by omega)]
  rw [if_pos ⟨hm1, hm2, hd1, hd31⟩]
  unfold mkValidDate
  rw [if_pos ⟨hy1, hy2, hm1, hm2, hd1, hd2⟩]

/-- The ISO format rejects a day-first dash date: its first component
is the two-digit day, not a four-digit year. -/
theorem parseFmt_ISO_on_DMYDash (dt : Date) :
    parseFmt '-' true (renderDMYDash dt) = none := by
  unfold parseFmt
  rw [split_renderDMYDash]
  simp [read4_two]

/-- The day-first slash format rejects a year-first slash date: its
third component is the two-digit day, not a four-digit year. -/
theorem parseFmt_DMYSlash_on_YMDSlash (dt : Date) :
    parseFmt '/' false (renderYMDSlash dt) = none := by
  unfold parseFmt
  rw [split_renderYMDSlash]
  simp [read4_two]

/-- Claim C3: `parse_date` tries the four formats `%Y-%m-%d`, `%d/%m/%Y`,
`%d-%m-%Y`, `%Y/%m/%d` in this fixed order and returns the date of the
first succeeding format (the embedding `parse_date` is this order and is
total, returning `none` on exhaustion instead of raising); for each of
the four supported literal formats, a valid calendar date written in
that format parses back to the same calendar date. -/
theorem parse_date_four_formats (y m d : Nat) (hy1 : 1 ≤ y) (hy2 : y ≤ 9999)
    (hm1 : 1 ≤ m) (hm2 : m ≤ 12) (hd1 : 1 ≤ d) (hd2 : d ≤ daysInMonth y m) :
    parse_date (renderISO ⟨y, m, d⟩) = some ⟨y, m, d⟩ ∧
    parse_date (renderDMYSlash ⟨y, m, d⟩) = some ⟨y, m, d⟩ ∧
    parse_date (renderDMYDash ⟨y, m, d⟩) = some ⟨y, m, d⟩ ∧
    parse_date (renderYMDSlash ⟨y, m, d⟩) = some ⟨y, m, d⟩ := by
  refine ⟨?_, ?_, ?_, ?_⟩
  · unfold parse_date
    rw [parseFmt_ISO y m d hy1 hy2 hm1 hm2 hd1 hd2]
  · unfold parse_date
    rw [parseFmt_of_not_mem '-' true _ (not_mem_dash_renderDMYSlash _),
      parseFmt_DMYSlash y m d hy1 hy2 hm1 hm2 hd1 hd2]
  · unfold parse_date
    rw [parseFmt_ISO_on_DMYDash,
      parseFmt_of_not_mem '/' false _ (not_mem_slash_renderDMYDash _),
      parseFmt_DMYDash y m d hy1 hy2 hm1 hm2 hd1 hd2]
  · unfold parse_date
    rw [parseFmt_of_not_mem '-' true _ (not_mem_dash_renderYMDSlash _),
      parseFmt_DMYSlash_on_YMDSlash,
      parseFmt_of_not_mem '-' false _ (not_mem_dash_renderYMDSlash _)]
    exact parseFmt_YMDSlash y m d hy1 hy2 hm1 hm2 hd1 hd2

theorem parse_date_four_formats_witness :
    parse_date (renderISO ⟨2023, 5, 4⟩) = some ⟨2023, 5, 4⟩ ∧
    parse_date (renderDMYSlash ⟨2023, 5, 4⟩) = some ⟨2023, 5, 4⟩ ∧
    parse_date (renderDMYDash ⟨2023, 5, 4⟩) = some ⟨2023, 5, 4⟩ ∧
    parse_date (renderYMDSlash ⟨2023, 5, 4⟩) = some ⟨2023, 5, 4⟩ :=
  parse_date_four_formats 2023 5 4 (by decide) (by decide) (by decide) (by decide)
    (by decide) (by decide)

/-- Claim C6: the country remap of lines 67–70 sends the exact string
`United Kingdom` to `UK` and the empty string to a missing value,
leaves every other value (including missing) unchanged, and is
idempotent. -/
theorem remapCountry_spec :
    remapCountry (some "United Kingdom".data) = some "UK".data ∧
    remapCountry (some []) = none ∧
    (∀ c : Option (List Char), c ≠ some "United Kingdom".data → c ≠ some [] →
      remapCountry c = c) ∧
    (∀ c : Option (List Char), remapCountry (remapCountry c) = remapCountry c) := by
  refine ⟨by decide, by decide, ?_, ?_⟩
  · intro c h1 h2
    unfold remapCountry
    rw [if_neg h1, if_neg h2]
  · intro c
    by_cases h1 : c = some "United Kingdom".data
    · subst h1; decide
    · by_cases h2 : c = some []
      · subst h2; decide
      · unfold remapCountry
        rw [if_neg h1, if_neg h2, if_neg h1, if_neg h2]

theorem remapCountry_spec_witness :
    remapCountry (some "France".data) = some "France".data ∧
    remapCountry (remapCountry (some "United Kingdom".data)) =
      remapCountry (some "United Kingdom".data) := by
  obtain ⟨-, -, h3, h4⟩ := remapCountry_spec
  exact ⟨h3 (some "France".data) (by decide) (by decide), h4 (some "United Kingdom".data)⟩

/-! ## Median and imputation lemmas (claims C5 and C10) -/

theorem length_insertSorted (x : ℚ) (l : List ℚ) :
    (insertSorted x l).length = l.length + 1 := by
  induction l with
  | nil => rfl
  | cons y ys ih =>
    unfold insertSorted
    by_cases h : x ≤ y <;> simp [h, ih]

theorem length_sortRats (l : List ℚ) : (sortRats l).length = l.length := by
  induction l with
  | nil => rfl
  | cons x xs ih =>
    show (insertSorted x (sortRats xs)).length = xs.length + 1
    rw [length_insertSorted, ih]

theorem medianOpt_isSome (l : List ℚ) (h : l ≠ []) : (medianOpt l).isSome := by
  unfold medianOpt
  have hlen : (sortRats l).length ≠ 0 := by
    rw [length_sortRats]
    simpa using h
  dsimp only
  split_ifs with h0 h1
  · exact absurd h0 hlen
  · rfl
  · rfl

/-- Updating the country of a customer row leaves the age column alone,
so the median sees the same ages before and after the remap. -/
theorem filterMap_age_map_remap (raw : List Customer) :
    ((dedupCustomers raw).map
        (fun c => { c with country := remapCountry c.country })).filterMap
      (fun c => c.age) =
    (dedupCustomers raw).filterMap (fun c => c.age) := by
  rw [List.filterMap_map]
  rfl

/-- The two parts of the imputation contract, given that the median of
the deduplicated ages exists: every cleaned age is present, and
position-wise the cleaned age is the original one when present and the
median otherwise. -/
theorem cleanCustomers_age_spec (raw : List Customer) (med : ℚ)
    (hmed : medianOpt ((dedupCustomers raw).filterMap (fun c => c.age)) = some med) :
    (∀ c ∈ cleanCustomers raw, c.age.isSome) ∧
    ∀ (i : Nat) (c : Customer) (c' : CleanCustomer),
      (dedupCustomers raw)[i]? = some c → (cleanCustomers raw)[i]? = some c' →
      c'.age = some (c.age.getD med) := by
  have hmed' : medianOpt
      (((dedupCustomers raw).map
        (fun c => { c with country := remapCountry c.country })).filterMap
        (fun c => c.age)) = some med := by
    rw [filterMap_age_map_remap]; exact hmed
  constructor
  · intro c' hc'
    unfold cleanCustomers at hc'
    dsimp only at hc'
    rw [hmed'] at hc'
    obtain ⟨c, _, hc⟩ := List.mem_map.mp hc'
    rw [← hc]
    cases hage : c.age <;> simp [fillAge, hage]
  · intro i c c' hc hc'
    unfold cleanCustomers at hc'
    dsimp only at hc'
    rw [hmed'] at hc'
    rw [List.getElem?_map, List.getElem?_map, hc] at hc'
    simp only [Option.map_some'] at hc'
    cases hc'
    cases hage : c.age <;> simp [fillAge, hage]

/-- Claim C5 (amended): whenever the deduplicated (first occurrence per
customer id) rows retain at least one non-missing age, the imputation
median exists and is computed on the deduplicated ages; after filling no
missing age remains; and position-wise every cleaned age equals the
original age when it was present and that pre-fill median otherwise. -/
theorem age_imputation_after_dedup (raw : List Customer)
    (h : ∃ c ∈ dedupCustomers raw, c.age.isSome) :
    ∃ med, medianOpt ((dedupCustomers raw).filterMap (fun c => c.age)) = some med ∧
      (∀ c ∈ cleanCustomers raw, c.age.isSome) ∧
      ∀ (i : Nat) (c : Customer) (c' : CleanCustomer),
        (dedupCustomers raw)[i]? = some c → (cleanCustomers raw)[i]? = some c' →
        c'.age = some (c.age.getD med) := by
  obtain ⟨c, hc, hage⟩ := h
  obtain ⟨a, ha⟩ := Option.isSome_iff_exists.mp hage
  have hmem : a ∈ (dedupCustomers raw).filterMap (fun c => c.age) :=
    List.mem_filterMap.mpr ⟨c, hc, ha⟩
  have hne : (dedupCustomers raw).filterMap (fun c => c.age) ≠ [] := by
    intro hnil; rw [hnil] at hmem; exact List.not_mem_nil a hmem
  obtain ⟨med, hmed⟩ :=
    Option.isSome_iff_exists.mp (medianOpt_isSome _ hne)
  exact ⟨med, hmed, cleanCustomers_age_spec raw med hmed⟩

theorem age_imputation_after_dedup_witness :
    ∃ med, medianOpt ((dedupCustomers [dupSecondCustomer]).filterMap (fun c => c.age)) =
        some med ∧
      (∀ c ∈ cleanCustomers [dupSecondCustomer], c.age.isSome) ∧
      ∀ (i : Nat) (c : Customer) (c' : CleanCustomer),
        (dedupCustomers [dupSecondCustomer])[i]? = some c →
        (cleanCustomers [dupSecondCustomer])[i]? = some c' →
        c'.age = some (c.age.getD med) :=
  age_imputation_after_dedup [dupSecondCustomer] (by decide)

/-- Claim C5 (counterexample to the claim as stated): a raw customers
table with a non-missing age can still end up with a missing age after
cleaning, because the only age value sits on a duplicate row that the
dedup (which runs before the median) removes, leaving an all-missing
age column whose median is itself missing. -/
theorem age_imputation_raw_table_fails :
    (∃ c ∈ [dupFirstCustomer, dupSecondCustomer], c.age.isSome) ∧
    (∃ c ∈ cleanCustomers [dupFirstCustomer, dupSecondCustomer], c.age = none) := by
  decide

/-! ## Duplicate-count lemmas (claim C10) -/

/-- If the elements of `l` are pairwise distinct under `key` and none of
them has been seen yet, the duplicated count is zero. -/
theorem countDupGo_eq_zero {α β : Type} [DecidableEq α] (key : α → β)
    (seen : List α) (l : List α)
    (hpair : l.Pairwise (fun a b => key a ≠ key b))
    (hseen : ∀ x ∈ l, x ∉ seen) : countDupGo seen l = 0 := by
  induction l generalizing seen with
  | nil => rfl
  | cons x xs ih =>
    rw [List.pairwise_cons] at hpair
    unfold countDupGo
    rw [if_neg (hseen x (List.mem_cons_self x xs))]
    have hnext : ∀ y ∈ xs, y ∉ x :: seen := by
      intro y hy hmem
      rcases List.mem_cons.mp hmem with h | h
      · exact hpair.1 y hy (by rw [h])
      · exact hseen y (List.mem_cons_of_mem _ hy) h
    rw [ih (x :: seen) hpair.2 hnext]

theorem dedupGo_id_not_mem (seen : List (List Char)) (l : List Customer) :
    ∀ c ∈ dedupGo seen l, c.customer_id ∉ seen := by
  induction l generalizing seen with
  | nil => intro c hc; simp [dedupGo] at hc
  | cons x xs ih =>
    intro c hc
    unfold dedupGo at hc
    by_cases hx : x.customer_id ∈ seen
    · rw [if_pos hx] at hc
      exact ih seen c hc
    · rw [if_neg hx] at hc
      rcases List.mem_cons.mp hc with h | h
      · rw [h]; exact hx
      · intro hmem
        exact ih (x.customer_id :: seen) c h (List.mem_cons_of_mem _ hmem)

/-- The rows kept by the dedup of line 66 have pairwise distinct ids. -/
theorem dedupGo_pairwise (seen : List (List Char)) (l : List Customer) :
    (dedupGo seen l).Pairwise (fun a b => a.customer_id ≠ b.customer_id) := by
  induction l generalizing seen with
  | nil => exact List.Pairwise.nil
  | cons x xs ih =>
    unfold dedupGo
    by_cases hx : x.customer_id ∈ seen
    · rw [if_pos hx]; exact ih seen
    · rw [if_neg hx]
      refine List.pairwise_cons.mpr ⟨?_, ih _⟩
      intro b hb he
      apply dedupGo_id_not_mem (x.customer_id :: seen) xs b hb
      rw [← he]
      exact List.mem_cons_self _ _

/-- The cleaned customers table keeps the deduplicated ids, so its rows
have pairwise distinct ids as well. -/
theorem cleanCustomers_pairwise_id (raw : List Customer) :
    (cleanCustomers raw).Pairwise (fun a b => a.customer_id ≠ b.customer_id) := by
  unfold cleanCustomers
  dsimp only
  rw [List.pairwise_map, List.pairwise_map]
  exact dedupGo_pairwise [] raw

/-- The median of the deduplicated ages exists once one of them is
present. -/
theorem dedup_median_exists (raw : List Customer)
    (h : ∃ c ∈ dedupCustomers raw, c.age.isSome) :
    ∃ med, medianOpt ((dedupCustomers raw).filterMap (fun c => c.age)) = some med := by
  obtain ⟨c, hc, hage⟩ := h
  obtain ⟨a, ha⟩ := Option.isSome_iff_exists.mp hage
  have hmem : a ∈ (dedupCustomers raw).filterMap (fun c => c.age) :=
    List.mem_filterMap.mpr ⟨c, hc, ha⟩
  have hne : (dedupCustomers raw).filterMap (fun c => c.age) ≠ [] := by
    intro hnil; rw [hnil] at hmem; exact List.not_mem_nil a hmem
  exact Option.isSome_iff_exists.mp (medianOpt_isSome _ hne)

/-- Claim C10 (amended): the report's duplicate-record and missing-age
counts are evaluated on the already-cleaned customers table, so whenever
the deduplicated rows retain at least one non-missing age both reported
counts are zero, regardless of how many duplicates or missing ages the
raw input contained. -/
theorem report_counts_zero (raw : List Customer)
    (h : ∃ c ∈ dedupCustomers raw, c.age.isSome) :
    countDuplicated (cleanCustomers raw) = 0 ∧
    countMissingAge (cleanCustomers raw) = 0 := by
  constructor
  · exact countDupGo_eq_zero (fun c => c.customer_id) [] _
      (cleanCustomers_pairwise_id raw) (fun x _ hx => List.not_mem_nil x hx)
  · obtain ⟨med, hmed⟩ := dedup_median_exists raw h
    have hall := (cleanCustomers_age_spec raw med hmed).1
    have hnil : (cleanCustomers raw).filter (fun c => c.age.isNone) = [] := by
      rw [List.filter_eq_nil_iff]
      intro a ha
      have hs := hall a ha
      cases hag : a.age with
      | none => rw [hag] at hs; simp at hs
      | some v => simp [hag]
    unfold countMissingAge
    rw [hnil]
    rfl

theorem report_counts_zero_witness :
    countDuplicated (cleanCustomers [goodCustomer]) = 0 ∧
    countMissingAge (cleanCustomers [goodCustomer]) = 0 := by
  have h : ∃ c ∈ dedupCustomers [goodCustomer], c.age.isSome := by decide
  exact report_counts_zero [goodCustomer] h

/-- Claim C10 (counterexample to the claim as stated): with a raw table
whose only age value sits on a dropped duplicate row, the raw input did
contain a non-missing age and yet the reported missing-age count on the
cleaned table is 1, not 0. -/
theorem report_counts_raw_age_fails :
    (∃ c ∈ [dupFirstCustomer, dupSecondCustomer], c.age.isSome) ∧
    countMissingAge (cleanCustomers [dupFirstCustomer, dupSecondCustomer]) = 1 := by
  decide

/-! ## Merge lemmas (claims C4 and C7) -/

/-- At most one element of a list passes a predicate that no two
distinct elements can pass together. -/
theorem length_filter_le_one {α : Type} (p : α → Bool) (l : List α)
    (hpair : l.Pairwise (fun a b => ¬(p a = true ∧ p b = true))) :
    (l.filter p).length ≤ 1 := by
  induction l with
  | nil => simp
  | cons x xs ih =>
    rw [List.pairwise_cons] at hpair
    by_cases hx : p x = true
    · rw [List.filter_cons_of_pos hx]
      have hnil : xs.filter p = [] := by
        rw [List.filter_eq_nil_iff]
        intro a ha hpa
        exact hpair.1 a ha ⟨hx, hpa⟩
      rw [hnil]
      simp
    · rw [List.filter_cons_of_neg (by simpa using hx)]
      exact ih hpair.2

/-- With a catalog that is unique per (product_name, category), the
first left join emits exactly one row per sales row. -/
theorem leftJoinProducts_length (sales : List Sale) (products : List Product)
    (hp : products.Pairwise
      (fun p q => ¬(p.product_name = q.product_name ∧ p.category = q.category))) :
    (leftJoinProducts sales products).length = sales.length := by
  induction sales with
  | nil => rfl
  | cons s ss ih =>
    have hstep : leftJoinProducts (s :: ss) products =
        (match products.filter
            (fun p => decide (p.product_name = s.product_name ∧ p.category = s.category)) with
          | [] => [⟨s, none⟩]
          | m => m.map (fun p => (⟨s, some p.cost_price⟩ : SP))) ++
        leftJoinProducts ss products := by
      unfold leftJoinProducts
      rw [List.flatMap_cons]
    rw [hstep, List.length_append, ih]
    have hle : (products.filter
        (fun p => decide (p.product_name = s.product_name ∧ p.category = s.category))).length ≤ 1 := by
      refine length_filter_le_one _ products (hp.imp ?_)
      intro a b hab ⟨ha, hb⟩
      rw [decide_eq_true_eq] at ha hb
      exact hab ⟨ha.1.trans hb.1.symm, ha.2.trans hb.2.symm⟩
    rcases hfil : products.filter
        (fun p => decide (p.product_name = s.product_name ∧ p.category = s.category)) with
      _ | ⟨p, ps⟩
    · rw [hfil]
      simp [Nat.add_comm]
    · rw [hfil] at hle
      simp only [List.length_cons] at hle
      have hps : ps = [] := by
        cases ps with
        | nil => rfl
        | cons a b => simp at hle
      subst hps
      rw [hfil]
      simp [Nat.add_comm]

/-- With customers deduplicated by id, the second left join emits
exactly one row per input row. -/
theorem leftJoinCustomers_length (rows : List SP) (customers : List CleanCustomer)
    (hc : customers.Pairwise (fun a b => a.customer_id ≠ b.customer_id)) :
    (leftJoinCustomers rows customers).length = rows.length := by
  induction rows with
  | nil => rfl
  | cons r rs ih =>
    have hstep : leftJoinCustomers (r :: rs) customers =
        (match customers.filter (fun c => decide (r.sale.customer_id = some c.customer_id)) with
          | [] => [⟨r.sale, r.cost_price, none⟩]
          | m => m.map (fun c => (⟨r.sale, r.cost_price, some c⟩ : SPC))) ++
        leftJoinCustomers rs customers := by
      unfold leftJoinCustomers
      rw [List.flatMap_cons]
    rw [hstep, List.length_append, ih]
    have hle : (customers.filter
        (fun c => decide (r.sale.customer_id = some c.customer_id))).length ≤ 1 := by
      refine length_filter_le_one _ customers (hc.imp ?_)
      intro a b hab ⟨ha, hb⟩
      rw [decide_eq_true_eq] at ha hb
      apply hab
      have := ha.symm.trans hb
      exact Option.some_injective _ this
    rcases hfil : customers.filter
        (fun c => decide (r.sale.customer_id = some c.customer_id)) with _ | ⟨c, cs⟩
    · rw [hfil]
      simp [Nat.add_comm]
    · rw [hfil] at hle
      simp only [List.length_cons] at hle
      have hcs : cs = [] := by
        cases cs with
        | nil => rfl
        | cons a b => simp at hle
      subst hcs
      rw [hfil]
      simp [Nat.add_comm]

/-- Every row of the first join carries a sales row of the input, and
every sales row of the input is carried by some row of the join. -/
theorem leftJoinProducts_sales (sales : List Sale) (products : List Product) :
    (∀ r ∈ leftJoinProducts sales products, r.sale ∈ sales) ∧
    (∀ s ∈ sales, ∃ r ∈ leftJoinProducts sales products, r.sale = s) := by
  constructor
  · intro r hr
    obtain ⟨s, hs, hrs⟩ := List.mem_flatMap.mp hr
    rcases hfil : products.filter
        (fun p => decide (p.product_name = s.product_name ∧ p.category = s.category)) with
      _ | ⟨p, ps⟩
    · rw [hfil] at hrs
      simp only [List.mem_singleton] at hrs
      rw [hrs]
      exact hs
    · rw [hfil] at hrs
      obtain ⟨q, _, hq⟩ := List.mem_map.mp hrs
      rw [← hq]
      exact hs
  · intro s hs
    rcases hfil : products.filter
        (fun p => decide (p.product_name = s.product_name ∧ p.category = s.category)) with
      _ | ⟨p, ps⟩
    · refine ⟨⟨s, none⟩, List.mem_flatMap.mpr ⟨s, hs, ?_⟩, rfl⟩
      rw [hfil]
      exact List.mem_singleton.mpr rfl
    · refine ⟨⟨s, some p.cost_price⟩, List.mem_flatMap.mpr ⟨s, hs, ?_⟩, rfl⟩
      rw [hfil]
      exact List.mem_map.mpr ⟨p, List.mem_cons_self p ps, rfl⟩

/-- Every row of the second join carries the sale and cost of a row of
its input, and every input row is carried by some output row. -/
theorem leftJoinCustomers_rows (rows : List SP) (customers : List CleanCustomer) :
    (∀ t ∈ leftJoinCustomers rows customers,
      ∃ r ∈ rows, t.sale = r.sale ∧ t.cost_price = r.cost_price) ∧
    (∀ r ∈ rows, ∃ t ∈ leftJoinCustomers rows customers,
      t.sale = r.sale ∧ t.cost_price = r.cost_price) := by
  constructor
  · intro t ht
    obtain ⟨r, hr, hrt⟩ := List.mem_flatMap.mp ht
    rcases hfil : customers.filter
        (fun c => decide (r.sale.customer_id = some c.customer_id)) with _ | ⟨c, cs⟩
    · rw [hfil] at hrt
      simp only [List.mem_singleton] at hrt
      exact ⟨r, hr, by rw [hrt], by rw [hrt]⟩
    · rw [hfil] at hrt
      obtain ⟨q, _, hq⟩ := List.mem_map.mp hrt
      exact ⟨r, hr, by rw [← hq], by rw [← hq]⟩
  · intro r hr
    rcases hfil : customers.filter
        (fun c => decide (r.sale.customer_id = some c.customer_id)) with _ | ⟨c, cs⟩
    · refine ⟨⟨r.sale, r.cost_price, none⟩, List.mem_flatMap.mpr ⟨r, hr, ?_⟩, rfl, rfl⟩
      rw [hfil]
      exact List.mem_singleton.mpr rfl
    · refine ⟨⟨r.sale, r.cost_price, some c⟩, List.mem_flatMap.mpr ⟨r, hr, ?_⟩, rfl, rfl⟩
      rw [hfil]
      exact List.mem_map.mpr ⟨c, List.mem_cons_self c cs, rfl⟩

/-- A first-join row whose sale matches no product carries a missing
cost. -/
theorem leftJoinProducts_unmatched (sales : List Sale) (products : List Product) :
    ∀ r ∈ leftJoinProducts sales products,
      (∀ pr ∈ products,
        ¬(pr.product_name = r.sale.product_name ∧ pr.category = r.sale.category)) →
      r.cost_price = none := by
  intro r hr hno
  obtain ⟨s, hs, hsr⟩ := List.mem_flatMap.mp hr
  rcases hfil : products.filter
      (fun p => decide (p.product_name = s.product_name ∧ p.category = s.category)) with
    _ | ⟨p, ps⟩
  · rw [hfil] at hsr
    simp only [List.mem_singleton] at hsr
    rw [hsr]
  · rw [hfil] at hsr
    obtain ⟨q, hq, hqr⟩ := List.mem_map.mp hsr
    exfalso
    have hqmem : q ∈ products.filter
        (fun p => decide (p.product_name = s.product_name ∧ p.category = s.category)) := by
      rw [hfil]; exact hq
    have hqp := List.of_mem_filter hqmem
    rw [decide_eq_true_eq] at hqp
    have hrs : r.sale = s := by rw [← hqr]
    exact hno q (List.mem_filter.mp hqmem).1 (by rw [hrs]; exact hqp)

/-- A second-join row whose sale matches no customer carries a missing
customer block. -/
theorem leftJoinCustomers_unmatched (rows : List SP) (customers : List CleanCustomer) :
    ∀ t ∈ leftJoinCustomers rows customers,
      (∀ cu ∈ customers, t.sale.customer_id ≠ some cu.customer_id) →
      t.customer = none := by
  intro t ht hno
  obtain ⟨r, hr, hrt⟩ := List.mem_flatMap.mp ht
  rcases hfil : customers.filter
      (fun c => decide (r.sale.customer_id = some c.customer_id)) with _ | ⟨c, cs⟩
  · rw [hfil] at hrt
    simp only [List.mem_singleton] at hrt
    rw [hrt]
  · rw [hfil] at hrt
    obtain ⟨q, hq, hqt⟩ := List.mem_map.mp hrt
    exfalso
    have hqmem : q ∈ customers.filter
        (fun c => decide (r.sale.customer_id = some c.customer_id)) := by
      rw [hfil]; exact hq
    have hqc := List.of_mem_filter hqmem
    rw [decide_eq_true_eq] at hqc
    have hts : t.sale = r.sale := by rw [← hqt]
    exact hno q (List.mem_filter.mp hqmem).1 (by rw [hts]; exact hqc)

/-- Every merged row carries a sales row, derives its profit from its
own price, cost and quantity, and keeps missing values on an unmatched
side. -/
theorem mergedData_unmatched (sales : List Sale) (products : List Product)
    (customers : List CleanCustomer) :
    ∀ m ∈ mergedData sales products customers,
      m.sale ∈ sales ∧
      m.profit = m.cost_price.map (fun cp => (m.sale.price - cp) * (m.sale.quantity : ℚ)) ∧
      ((∀ pr ∈ products,
          ¬(pr.product_name = m.sale.product_name ∧ pr.category = m.sale.category)) →
        m.cost_price = none) ∧
      ((∀ cu ∈ customers, m.sale.customer_id ≠ some cu.customer_id) →
        m.customer = none) := by
  intro m hm
  obtain ⟨t, ht, htm⟩ := List.mem_map.mp hm
  obtain ⟨r, hr, hts, htc⟩ := (leftJoinCustomers_rows _ customers).1 t ht
  have hsale : m.sale = t.sale := by rw [← htm]
  have hcost : m.cost_price = t.cost_price := by rw [← htm]
  have hcust : m.customer = t.customer := by rw [← htm]
  have hprofit : m.profit =
      m.cost_price.map (fun cp => (m.sale.price - cp) * (m.sale.quantity : ℚ)) := by
    rw [← htm]
  refine ⟨?_, hprofit, ?_, ?_⟩
  · rw [hsale, hts]
    exact (leftJoinProducts_sales sales products).1 r hr
  · intro hno
    rw [hcost, htc]
    apply leftJoinProducts_unmatched sales products r hr
    intro pr hpr
    rw [← hts, ← hsale]
    exact hno pr hpr
  · intro hno
    rw [hcust]
    apply leftJoinCustomers_unmatched _ customers t ht
    intro cu hcu
    rw [← hsale]
    exact hno cu hcu

/-- Claim C4: with the catalog unique per (product_name, category) and
the customers deduplicated by customer_id (pairwise distinct ids, as
`cleanCustomers` produces), the two sequential left joins preserve
cardinality: the merged row count equals the sales row count, every
sales row is still carried by some merged row, and a merged row whose
sale matches no product (respectively no customer) carries missing
values on that side. -/
theorem merge_preserves_cardinality (sales : List Sale) (products : List Product)
    (customers : List CleanCustomer)
    (hp : products.Pairwise
      (fun p q => ¬(p.product_name = q.product_name ∧ p.category = q.category)))
    (hc : customers.Pairwise (fun a b => a.customer_id ≠ b.customer_id)) :
    (mergedData sales products customers).length = sales.length ∧
    (∀ s ∈ sales, ∃ m ∈ mergedData sales products customers, m.sale = s) ∧
    (∀ m ∈ mergedData sales products customers,
      ((∀ pr ∈ products,
          ¬(pr.product_name = m.sale.product_name ∧ pr.category = m.sale.category)) →
        m.cost_price = none) ∧
      ((∀ cu ∈ customers, m.sale.customer_id ≠ some cu.customer_id) →
        m.customer = none)) := by
  refine ⟨?_, ?_, ?_⟩
  · unfold mergedData
    rw [List.length_map, leftJoinCustomers_length _ _ hc, leftJoinProducts_length _ _ hp]
  · intro s hs
    obtain ⟨r, hr, hrs⟩ := (leftJoinProducts_sales sales products).2 s hs
    obtain ⟨t, ht, hts, _⟩ := (leftJoinCustomers_rows (leftJoinProducts sales products)
      customers).2 r hr
    refine ⟨⟨t.sale, t.cost_price, t.customer,
      t.cost_price.map (fun cp => (t.sale.price - cp) * (t.sale.quantity : ℚ))⟩,
      List.mem_map.mpr ⟨t, ht, rfl⟩, ?_⟩
    rw [hts, hrs]
  · intro m hm
    obtain ⟨-, -, h3, h4⟩ := mergedData_unmatched sales products customers m hm
    exact ⟨h3, h4⟩

theorem merge_preserves_cardinality_witness :
    (mergedData [demoCleanSale] [demoProduct] [demoCleanCustomer]).length =
      [demoCleanSale].length ∧
    (∀ s ∈ [demoCleanSale],
      ∃ m ∈ mergedData [demoCleanSale] [demoProduct] [demoCleanCustomer], m.sale = s) ∧
    (∀ m ∈ mergedData [demoCleanSale] [demoProduct] [demoCleanCustomer],
      ((∀ pr ∈ [demoProduct],
          ¬(pr.product_name = m.sale.product_name ∧ pr.category = m.sale.category)) →
        m.cost_price = none) ∧
      ((∀ cu ∈ [demoCleanCustomer], m.sale.customer_id ≠ some cu.customer_id) →
        m.customer = none)) := by
  have hp : ([demoProduct] : List Product).Pairwise
      (fun p q => ¬(p.product_name = q.product_name ∧ p.category = q.category)) := by
    simp
  have hc : ([demoCleanCustomer] : List CleanCustomer).Pairwise
      (fun a b => a.customer_id ≠ b.customer_id) := by
    simp
  exact merge_preserves_cardinality [demoCleanSale] [demoProduct] [demoCleanCustomer] hp hc

/-! ## Revenue and profit (claim C7) -/

/-- Line 62: a cleaned sales row records revenue = price × quantity. -/
theorem cleanSaleRow_revenue (r : RawSale) (s : Sale) (h : cleanSaleRow r = some s) :
    s.revenue = s.price * (s.quantity : ℚ) := by
  unfold cleanSaleRow at h
  rw [Option.map_eq_some'] at h
  obtain ⟨p, -, hp⟩ := h
  rw [← hp]

/-- Every row of a successfully cast sales table satisfies the revenue
identity. -/
theorem cleanSales_revenue (raws : List RawSale) (sales : List Sale)
    (h : cleanSales raws = some sales) :
    ∀ s ∈ sales, s.revenue = s.price * (s.quantity : ℚ) := by
  induction raws generalizing sales with
  | nil =>
    unfold cleanSales at h
    rw [List.mapM_nil] at h
    have hs : sales = [] := by
      injection h with h
      exact h.symm
    rw [hs]
    intro s hs'
    exact absurd hs' (List.not_mem_nil s)
  | cons r rs ih =>
    unfold cleanSales at h
    rw [List.mapM_cons] at h
    cases hr : cleanSaleRow r with
    | none => rw [hr] at h; simp at h
    | some s0 =>
      rw [hr] at h
      cases hrs : List.mapM cleanSaleRow rs with
      | none => rw [hrs] at h; simp at h
      | some ss =>
        rw [hrs] at h
        have hss : s0 :: ss = sales := by injection h
        intro s hs
        rw [← hss] at hs
        rcases List.mem_cons.mp hs with hcase | hcase
        · rw [hcase]
          exact cleanSaleRow_revenue r s0 hr
        · exact ih ss hrs s hcase

/-- Claim C7: after currency stripping and the numeric cast, every
merged row satisfies revenue = price × quantity, and whenever the cost
price is present, profit = (price − cost price) × quantity. -/
theorem merged_revenue_profit (raws : List RawSale) (products : List Product)
    (customers : List CleanCustomer) (sales : List Sale)
    (h : cleanSales raws = some sales) :
    ∀ m ∈ mergedData sales products customers,
      m.sale.revenue = m.sale.price * (m.sale.quantity : ℚ) ∧
      ∀ cp, m.cost_price = some cp →
        m.profit = some ((m.sale.price - cp) * (m.sale.quantity : ℚ)) := by
  intro m hm
  obtain ⟨hmem, hprofit, -, -⟩ := mergedData_unmatched sales products customers m hm
  refine ⟨cleanSales_revenue raws sales h m.sale hmem, ?_⟩
  intro cp hcp
  rw [hprofit, hcp]
  rfl

theorem merged_revenue_profit_witness :
    cleanSales [demoRawSale] = some [demoCleanSale] ∧
    (∀ m ∈ mergedData [demoCleanSale] [demoProduct] [],
      m.sale.revenue = m.sale.price * (m.sale.quantity : ℚ) ∧
      ∀ cp, m.cost_price = some cp →
        m.profit = some ((m.sale.price - cp) * (m.sale.quantity : ℚ))) ∧
    (mergedData [demoCleanSale] [demoProduct] []).map
      (fun m => (m.sale.revenue, m.profit)) = [(20, some 8)] := by
  have hp : parseDecimal (stripCurrency demoRawSale.price) = some 10 := by
    have h1 : stripCurrency demoRawSale.price = "10.00".data := by decide
    rw [h1]
    unfold parseDecimal
    have h2 : splitOnSep '.' "10.00".data = ["10".data, "00".data] := by decide
    rw [h2]
    have h3 : readNat "10".data = some 10 := by decide
    have h4 : readNat "00".data = some 0 := by decide
    simp [h3, h4]
  have hrow : cleanSaleRow demoRawSale = some demoCleanSale := by
    unfold cleanSaleRow
    rw [hp, Option.map_some']
    have hname : stripWs "Laptop".data = "Laptop".data := by decide
    have hdate : parse_date "2023-01-15".data = some ⟨2023, 1, 15⟩ := by decide
    have hmail : cleanEmail (some "ann@shop.io".data) = some "ann@shop.io".data := by decide
    simp [demoRawSale, demoCleanSale, Sale.mk.injEq, hname, hdate, hmail]
    norm_num
  have hclean : cleanSales [demoRawSale] = some [demoCleanSale] := by
    unfold cleanSales
    rw [List.mapM_cons, hrow, List.mapM_nil]
    rfl
  refine ⟨hclean,
    merged_revenue_profit [demoRawSale] [demoProduct] [] [demoCleanSale] hclean, ?_⟩
  have hmerged : mergedData [demoCleanSale] [demoProduct] [] =
      [⟨demoCleanSale, some 6, none,
        some ((demoCleanSale.price - 6) * (demoCleanSale.quantity : ℚ))⟩] := by
    have hfil : ([demoProduct] : List Product).filter
        (fun p => decide (p.product_name = demoCleanSale.product_name ∧
          p.category = demoCleanSale.category)) = [demoProduct] := by decide
    unfold mergedData leftJoinCustomers leftJoinProducts
    rw [List.flatMap_cons, hfil]
    rfl
  rw [hmerged]
  simp [demoCleanSale]
  norm_num

/-- Claim C8: initial file loading is the only error boundary: a load
error is caught, its message is printed, and the run halts with no
report produced; reports exist only for runs whose load succeeded and
whose unguarded downstream stages (the price cast) did not raise; a
downstream failure crashes the run unhandled (distinct from the caught
load failure) and also produces no report. -/
theorem load_error_boundary :
    (∀ e, runPipeline (.error e) = .loadFailed e ∧
      reportsOf (runPipeline (.error e)) = none ∧
      printedError (runPipeline (.error e)) = some ("Error loading data: ".data ++ e)) ∧
    (∀ load r, reportsOf (runPipeline load) = some r →
      ∃ i sales, load = .ok i ∧ cleanSales i.sales_raw = some sales ∧
        r = buildReports sales i.products i.customers) ∧
    (∀ i, cleanSales i.sales_raw = none →
      runPipeline (.ok i) = .crashed ∧ reportsOf (runPipeline (.ok i)) = none) := by
  refine ⟨fun e => ⟨rfl, rfl, rfl⟩, ?_, ?_⟩
  · intro load r hr
    cases load with
    | error e => simp [runPipeline, reportsOf] at hr
    | ok i =>
      cases hcs : cleanSales i.sales_raw with
      | none =>
        unfold runPipeline at hr
        dsimp only at hr
        rw [hcs] at hr
        simp [reportsOf] at hr
      | some sales =>
        unfold runPipeline at hr
        dsimp only at hr
        rw [hcs] at hr
        simp only [reportsOf, Option.some.injEq] at hr
        exact ⟨i, sales, rfl, hcs, hr.symm⟩
  · intro i hnone
    constructor
    · unfold runPipeline
      dsimp only
      rw [hnone]
    · unfold runPipeline
      dsimp only
      rw [hnone]
      rfl

theorem load_error_boundary_witness :
    runPipeline (.error "No such file".data) = .loadFailed "No such file".data ∧
    reportsOf (runPipeline (.error "No such file".data)) = none ∧
    printedError (runPipeline (.error "No such file".data)) =
      some ("Error loading data: ".data ++ "No such file".data) ∧
    runPipeline (.ok badPriceInputs) = .crashed ∧
    reportsOf (runPipeline (.ok badPriceInputs)) = none := by
  obtain ⟨h1, -, h3⟩ := load_error_boundary
  obtain ⟨ha, hb, hc⟩ := h1 "No such file".data
  have hbad : cleanSales badPriceInputs.sales_raw = none := by decide
  obtain ⟨hd, he⟩ := h3 badPriceInputs hbad
  exact ⟨ha, hb, hc, hd, he⟩

end DataCleaning
